import Mathlib

/-!
# Verification of the adaptogen_scraper extraction core

Shallow embedding of the extraction engine of `nutritional_scraper.py` and
the URL-collection logic of `url_collector.py`.

Modelling conventions:
* A BeautifulSoup parse tree is a rose tree `Node` of elements (tag, class
  list, attribute list, children) and text fragments.  `find`/`find_all`
  search the descendants in document (pre-)order, as BeautifulSoup does.
* Python `float` values are modelled as exact rationals `ℚ`; the strings the
  code feeds to `float` are runs of digits and periods, which parse exactly
  when they hold at least one digit and at most one period.  `PyFloat` and
  `clean_numeric_value_sat` additionally keep CPython's saturation of
  overflowing decimal literals to `+inf` (`float('9'*400) == inf`, no
  exception); on finite results the two models agree (proved below).
* Python's `str.lower` is modelled on the ASCII letters plus the accented
  letters occurring in the scraper's keywords; `\s` is the ASCII whitespace
  class; `\d` is modelled by ASCII digits.
* `list(set(xs))` (whose iteration order Python leaves unspecified) is
  modelled by `List.dedup`; theorems about it only use order-insensitive
  consequences (membership, `Nodup`, `toFinset`).
-/

/-- Python `str.lower` restricted to ASCII plus the accented letters used by
the scraper's keywords (`ç`, `ã`, `é`, `í`, `ó`, `ô`, `õ`, `ú`, ...). -/
def charLower (c : Char) : Char :=
  if c = 'Ç' then 'ç'
  else if c = 'Ã' then 'ã'
  else if c = 'Á' then 'á'
  else if c = 'Â' then 'â'
  else if c = 'É' then 'é'
  else if c = 'Ê' then 'ê'
  else if c = 'Í' then 'í'
  else if c = 'Ó' then 'ó'
  else if c = 'Ô' then 'ô'
  else if c = 'Õ' then 'õ'
  else if c = 'Ú' then 'ú'
  else c.toLower

/-- Python `str.lower` on a whole string. -/
def pyLower (s : String) : String :=
  String.mk (s.data.map charLower)

/-- Python's `\s` / `str.strip` whitespace class (ASCII part). -/
def isPySpace (c : Char) : Bool :=
  c = ' ' || c = '\t' || c = '\n' || c = '\r' || c = '\x0b' || c = '\x0c'

/-- Python `str.strip()`: drop leading and trailing whitespace. -/
def pyStrip (s : String) : String :=
  String.mk (((s.data.dropWhile isPySpace).reverse.dropWhile isPySpace).reverse)

/-- Python `s.split()` on character lists: the maximal whitespace-free words
of the input, in order (`cur` holds the current word, reversed). -/
def wordsAux (cur : List Char) : List Char → List (List Char)
  | [] => if cur.isEmpty then [] else [cur.reverse]
  | c :: cs =>
    if isPySpace c then
      if cur.isEmpty then wordsAux [] cs else cur.reverse :: wordsAux [] cs
    else wordsAux (c :: cur) cs

/-- Interleave a single space between words. -/
def joinWords : List (List Char) → List Char
  | [] => []
  | [w] => w
  | w :: ws => w ++ ' ' :: joinWords ws

/-- Python `' '.join(s.split())`: collapse every internal whitespace run to a
single space and drop outer whitespace (used by the scraper to clean the
captured serving text). -/
def pyCollapse (s : String) : String :=
  String.mk (joinWords (wordsAux [] s.data))

/-- Python's substring containment `needle in hay` on character lists. -/
def listContains (needle : List Char) : List Char → Bool
  | [] => needle.isEmpty
  | c :: t => needle.isPrefixOf (c :: t) || listContains needle t

/-- Python's `needle in hay` on strings. -/
def strContains (hay needle : String) : Bool :=
  listContains needle.data hay.data

/-- Worker for `removeAll`; the fuel argument only makes the recursion
structural and is always called with at least the input's length, which the
scan (each step consumes at least one character) never exceeds. -/
def removeAllAux (p : Char) (ps : List Char) : Nat → List Char → List Char
  | 0, l => l
  | _ + 1, [] => []
  | fuel + 1, c :: cs =>
    if (p :: ps).isPrefixOf (c :: cs) then removeAllAux p ps fuel (cs.drop ps.length)
    else c :: removeAllAux p ps fuel cs

/-- Python `hay.replace(pat, '')` for a non-empty pattern `p :: ps`: remove
every (leftmost, non-overlapping) occurrence. -/
def removeAll (p : Char) (ps : List Char) (l : List Char) : List Char :=
  removeAllAux p ps l.length l

/-- Python `hay.split(pat, 1)` for a non-empty pattern: `some (before, after)`
split at the first occurrence, or `none` when the pattern does not occur. -/
def splitOnceAt (p : Char) (ps : List Char) : List Char → Option (List Char × List Char)
  | [] => none
  | c :: cs =>
    if (p :: ps).isPrefixOf (c :: cs) then some ([], cs.drop ps.length)
    else (splitOnceAt p ps cs).map (fun q => (c :: q.1, q.2))

/-! ## The parse-tree model -/

/-- A BeautifulSoup parse tree: an element node carries its tag name, its
(multi-valued) `class` attribute, its other attributes and its children; a
text node carries a string fragment. -/
inductive Node where
  | text : String → Node
  | elem : String → List String → List (String × String) → List Node → Node

mutual

/-- All descendants of a node in document (pre-)order, the order in which
BeautifulSoup's `find`/`find_all` report matches. -/
def Node.descendants : Node → List Node
  | .text _ => []
  | .elem _ _ _ ch => descendantsList ch

def descendantsList : List Node → List Node
  | [] => []
  | c :: cs => c :: Node.descendants c ++ descendantsList cs

end

mutual

/-- The text fragments below a node, in document order. -/
def Node.allStrings : Node → List String
  | .text s => [s]
  | .elem _ _ _ ch => allStringsList ch

def allStringsList : List Node → List String
  | [] => []
  | c :: cs => Node.allStrings c ++ allStringsList cs

end

/-- BeautifulSoup `get_text()`: concatenation of every text fragment. -/
def getText (n : Node) : String :=
  String.join n.allStrings

/-- BeautifulSoup `get_text(strip=True)`: each fragment stripped, then
concatenated. -/
def getTextStrip (n : Node) : String :=
  String.join (n.allStrings.map pyStrip)

/-- Tag of an element node (`""` for a text node). -/
def Node.tag : Node → String
  | .text _ => ""
  | .elem t _ _ _ => t

/-- Does this node match `find(tagName)`? -/
def Node.isTag (tagName : String) : Node → Bool
  | .text _ => false
  | .elem t _ _ _ => t == tagName

/-- Does this node match `find(tagName, class_=cls)` (the `class` attribute
is multi-valued, `class_` matches when it contains `cls`)? -/
def Node.hasTagClass (tagName cls : String) : Node → Bool
  | .text _ => false
  | .elem t cl _ _ => t == tagName && cl.contains cls

/-- BeautifulSoup `node.find(tagName)`: first matching descendant in document order. -/
def findTag (tagName : String) (n : Node) : Option Node :=
  n.descendants.find? (Node.isTag tagName)

/-- BeautifulSoup `node.find(tagName, class_=cls)`. -/
def findTagClass (tagName cls : String) (n : Node) : Option Node :=
  n.descendants.find? (Node.hasTagClass tagName cls)

/-- BeautifulSoup `node.find_all(tagName)`: all matching descendants in document order. -/
def findAllTag (tagName : String) (n : Node) : List Node :=
  n.descendants.filter (Node.isTag tagName)

/-- BeautifulSoup `node.find_all([t1, t2])`: descendants whose tag is one of the names. -/
def findAllTags (tagNames : List String) (n : Node) : List Node :=
  n.descendants.filter (fun d => tagNames.contains d.tag)

/-- BeautifulSoup `node.find_all(tagName, class_=cls)`. -/
def findAllTagClass (tagName cls : String) (n : Node) : List Node :=
  n.descendants.filter (Node.hasTagClass tagName cls)

/-- BeautifulSoup `node.get(attr)`: attribute lookup on an element. -/
def Node.getAttr (attr : String) : Node → Option String
  | .text _ => none
  | .elem _ _ attrs _ => (attrs.find? (fun p => p.1 == attr)).map (fun p => p.2)

/-- BeautifulSoup `tag.string`: the single text fragment below a tag when the
tag has exactly one child, descending through single-child tags. -/
def Node.nodeString : Node → Option String
  | .text s => some s
  | .elem _ _ _ [c] => Node.nodeString c
  | .elem _ _ _ _ => none

/-! ## `clean_numeric_value` (nutritional_scraper.py, lines 108-132) -/

/-- A character of the regex class `[\d.]`. -/
def isNumChar (c : Char) : Bool :=
  c.isDigit || c = '.'

/-- Python `re.search(r'[\d.]+', s)`: the leftmost maximal run of digit/period
characters, or `none` when the string holds no such character. -/
def firstNumRun : List Char → Option (List Char)
  | [] => none
  | c :: cs => if isNumChar c then some (c :: cs.takeWhile isNumChar) else firstNumRun cs

/-- Numeric value of a digit list, most significant first. -/
def digitsVal (ds : List Char) : Nat :=
  ds.foldl (fun a c => 10 * a + (c.toNat - '0'.toNat)) 0

/-- Python `float(run)` on a non-empty run of digits and periods: it parses
exactly when the run holds at most one period and at least one digit.  The
exact decimal value is reported as a mantissa together with the number of
fractional digits (so the value is `mantissa / 10 ^ scale`); keeping the
arithmetic in `Nat` keeps the parser kernel-evaluable. -/
def parseNumRun (run : List Char) : Option (Nat × Nat) :=
  if run.count '.' ≤ 1 && run.any Char.isDigit then
    some (digitsVal (run.filter (fun c => c ≠ '.')),
      ((run.dropWhile (fun c => c ≠ '.')).drop 1).length)
  else none

/-- Value of a `parseNumRun` result (floats are modelled as rationals). -/
def ratOfParts (p : Nat × Nat) : ℚ :=
  (p.1 : ℚ) / (10 : ℚ) ^ p.2

/-- The string-processing part of `clean_numeric_value`: `none` on empty or
whitespace-only input; otherwise strip, replace every comma by a period and
take the leftmost maximal `[\d.]+` run. -/
def cleanRun (value : String) : Option (List Char) :=
  if pyStrip value = "" then none
  else firstNumRun ((pyStrip value).data.map (fun c => if c = ',' then '.' else c))

/-- Source `clean_numeric_value`: return `0` for empty or whitespace-only input;
otherwise strip, replace every comma by a period, take the leftmost maximal
`[\d.]+` run and parse it with `float`, with `0` on a missing run or a
`ValueError`. -/
def clean_numeric_value (value : String) : ℚ :=
  match (cleanRun value).bind parseNumRun with
  | none => 0
  | some p => ratOfParts p

/-- Result type of Python `float` as needed here: a finite value (an exact
rational) or `+inf`, which CPython's `float` returns — without raising —
when a decimal literal overflows the IEEE double range. -/
inductive PyFloat where
  | finite : ℚ → PyFloat
  | inf : PyFloat
deriving DecidableEq

/-- Whether a `PyFloat` is finite (Python `math.isfinite`). -/
def PyFloat.isFinite : PyFloat → Bool
  | .finite _ => true
  | .inf => false

/-- Non-negativity of a `PyFloat` (`+inf` counts as non-negative). -/
def PyFloat.Nonneg : PyFloat → Prop
  | .finite q => 0 ≤ q
  | .inf => True

/-- The smallest exact decimal value that IEEE round-to-nearest-even sends
to `+inf`: the midpoint `2^1024 - 2^970` above the largest finite double
`2^1024 - 2^971` (an integer, since the threshold has no fractional part). -/
def floatOverflowNum : Nat := 2 ^ 1024 - 2 ^ 970

/-- Saturating refinement of `parseNumRun`: the same parse, but a run value
of at least the overflow threshold (the comparison `m / 10^k ≥ bound` taken
at the integer level as `bound * 10^k ≤ m`) saturates to `+inf`, as
CPython's `float` does on overflowing literals. -/
def parseNumRunSat (run : List Char) : Option PyFloat :=
  (parseNumRun run).map (fun p =>
    if floatOverflowNum * 10 ^ p.2 ≤ p.1 then PyFloat.inf
    else PyFloat.finite (ratOfParts p))

/-- Float-faithful `clean_numeric_value` (the same source lines 108-132);
its only difference from `clean_numeric_value` is that the overflow of
`float` to `+inf` is kept instead of being erased into `ℚ`. -/
def clean_numeric_value_sat (value : String) : PyFloat :=
  match (cleanRun value).bind parseNumRunSat with
  | none => .finite 0
  | some p => p

/-- The overflowing input of the C5 counterexample: 400 nines, a decimal
value near `10^400`, far above the double range. -/
def overflowInput : String := String.mk (List.replicate 400 '9')

/-- Modelled from the claim's words (for comparison with
`clean_numeric_value`): take the leftmost maximal contiguous run of digits
containing at most one decimal point. -/
def claimNumRunTake (seenDot : Bool) : List Char → List Char
  | [] => []
  | c :: cs =>
    if c.isDigit then c :: claimNumRunTake seenDot cs
    else if c = '.' then
      if seenDot then [] else '.' :: claimNumRunTake true cs
    else []

/-- Modelled from the claim's words: leftmost position of a numeric
character, then the maximal run with at most one decimal point from there. -/
def claimFirstNumRun : List Char → Option (List Char)
  | [] => none
  | c :: cs =>
    if isNumChar c then some (claimNumRunTake false (c :: cs)) else claimFirstNumRun cs

/-- Modelled from the claim's words: the Numeric Normalizer as C4 states it —
replace comma decimal separators with periods, extract the first maximal
contiguous run of digits containing at most one decimal point, parse it,
and return `0` when no run exists or parsing fails. -/
def claimNormalize (value : String) : ℚ :=
  match (if pyStrip value = "" then none
    else claimFirstNumRun
      ((pyStrip value).data.map (fun c => if c = ',' then '.' else c))).bind parseNumRun with
  | none => 0
  | some p => ratOfParts p

/-! ## The serving-size patterns (`extract_porcao`, lines 135-198)

The four source patterns are `Porção:\s*(.+?)(?:\n|<|$)`,
`Porção de\s+(.+?)(?:\n|<|$)`, `Porção\s+de\s+(.+?)(?:\n|<|$)` and
`Porção\s+(.+?)(?:\n|<|$)`, searched with `re.IGNORECASE`.  Each is a
case-insensitive literal part (chunks separated by `\s+`), a final
whitespace gap (`\s*` or `\s+`), and the reluctant capture. -/

/-- A serving-size pattern: leading literal, further literal chunks each
preceded by `\s+`, and the minimum width of the gap before the capture. -/
structure PorPat where
  first : List Char
  mid : List (List Char)
  minWs : Nat

/-- Case-insensitive literal match at the start; returns the remainder. -/
def matchLit : List Char → List Char → Option (List Char)
  | [], cs => some cs
  | _ :: _, [] => none
  | k :: ks, c :: cs => if charLower c = charLower k then matchLit ks cs else none

/-- Chunks each preceded by `\s+` (no backtracking is needed: a literal can
never start with a whitespace character). -/
def matchMid : List (List Char) → List Char → Option (List Char)
  | [], cs => some cs
  | k :: ks, cs =>
    let w := (cs.takeWhile isPySpace).length
    if w = 0 then none
    else
      match matchLit k (cs.drop w) with
      | some r => matchMid ks r
      | none => none

/-- The reluctant capture `(.+?)(?:\n|<|$)` at the start of the input: at
least one character, `.` never matches a newline, and the capture stops
right before the first `'\n'` or `'<'` (or at the end of the input). -/
def captureFrom : List Char → Option (List Char)
  | [] => none
  | c :: t =>
    if c = '\n' then none
    else some (c :: t.takeWhile (fun d => d ≠ '\n' && d ≠ '<'))

/-- Greedy-with-backtracking whitespace gap before the capture: try the gap
widths from `w` down to `minWs` and keep the first width at which the
capture succeeds. -/
def tryWsDown (minWs : Nat) (rest : List Char) : Nat → Option (List Char)
  | 0 => if minWs = 0 then captureFrom rest else none
  | w + 1 =>
    if w + 1 < minWs then none
    else
      match captureFrom (rest.drop (w + 1)) with
      | some cap => some cap
      | none => tryWsDown minWs rest w

/-- The gap `\s{minWs,}` (greedy) followed by the capture. -/
def wsCapture (minWs : Nat) (rest : List Char) : Option (List Char) :=
  tryWsDown minWs rest ((rest.takeWhile isPySpace).length)

/-- Try one pattern anchored at the start of the input. -/
def matchPat (p : PorPat) (cs : List Char) : Option (List Char) :=
  match matchLit p.first cs with
  | none => none
  | some r =>
    match matchMid p.mid r with
    | none => none
    | some r2 => wsCapture p.minWs r2

/-- Python `re.search`: the whole pattern at the leftmost position where it
matches. -/
def searchPat (p : PorPat) : List Char → Option (List Char)
  | [] => matchPat p []
  | c :: cs =>
    match matchPat p (c :: cs) with
    | some cap => some cap
    | none => searchPat p cs

/-- The four patterns, in source order (literals lower-cased: matching is
case-insensitive on both sides). -/
def porcaoPatterns : List PorPat :=
  [⟨"porção:".data, [], 0⟩,
   ⟨"porção de".data, [], 1⟩,
   ⟨"porção".data, ["de".data], 1⟩,
   ⟨"porção".data, [], 1⟩]

/-- The `for pattern in patterns` loop of `extract_porcao`: the first
pattern that matches wins, and its capture is stripped and
whitespace-collapsed. -/
def tryPatterns (text : String) : Option String :=
  porcaoPatterns.findSome? (fun p => (searchPat p text.data).map
    (fun cap => pyCollapse (String.mk cap)))

/-- The keyword tested by `'porção' in text.lower()`. -/
def porcaoKeyword : List Char := "porção".data

/-- Last resort inside a keyword cell: strip both case variants of the
keyword from the text and whitespace-collapse the remainder
(`text.replace('Porção', '').replace('porção', '')`). -/
def lastResortPorcao (t : String) : String :=
  pyCollapse (String.mk (removeAll 'p' "orção".data (removeAll 'P' "orção".data t.data)))

/-- The cell loop over the first body row: skip cells without the keyword;
in a keyword cell try the patterns, then the split at the first `'de'`
(guarded by `'de' in text.lower()`), then the last resort — which falls
through to the next cell when it leaves nothing. -/
def cellLoop : List Node → String
  | [] => ""
  | c :: rest =>
    let t := getText c
    if listContains porcaoKeyword (pyLower t).data then
      match tryPatterns t with
      | some r => r
      | none =>
        match (if listContains "de".data (pyLower t).data
          then splitOnceAt 'd' ['e'] t.data else none) with
        | some q => pyCollapse (String.mk q.2)
        | none =>
          let lr := lastResortPorcao t
          if lr = "" then cellLoop rest else lr
    else cellLoop rest

/-- Steps 2-4 of `extract_porcao`: the first `tr` of the `tbody`, scanning
its `td` and `th` cells. -/
def porcaoFromFirstRow (table : Node) : String :=
  match findTag "tbody" table with
  | none => ""
  | some tbody =>
    match findTag "tr" tbody with
    | none => ""
    | some firstRow => cellLoop (findAllTags ["td", "th"] firstRow)

/-- Source `extract_porcao`: the patterns against the `thead` text first, then the
first-body-row scan. -/
def extract_porcao (table : Node) : String :=
  match findTag "thead" table with
  | some thead =>
    match tryPatterns (getText thead) with
    | some r => r
    | none => porcaoFromFirstRow table
  | none => porcaoFromFirstRow table

/-! ## The nutrient schema and `parse_nutritional_table` (lines 201-266) -/

/-- The eight canonical nutrient fields. -/
inductive NutriField where
  | calorias
  | carboidratos
  | proteinas
  | gorduras
  | gorduras_saturadas
  | fibras
  | acucares
  | sodio
deriving DecidableEq

/-- The payload built by `parse_nutritional_table`: the serving text and the
eight numeric fields, each defaulting to `0`. -/
structure NutriData where
  porcao : String
  calorias : ℚ
  carboidratos : ℚ
  proteinas : ℚ
  gorduras : ℚ
  gorduras_saturadas : ℚ
  fibras : ℚ
  acucares : ℚ
  sodio : ℚ

/-- Read one canonical field. -/
def NutriData.get (d : NutriData) : NutriField → ℚ
  | .calorias => d.calorias
  | .carboidratos => d.carboidratos
  | .proteinas => d.proteinas
  | .gorduras => d.gorduras
  | .gorduras_saturadas => d.gorduras_saturadas
  | .fibras => d.fibras
  | .acucares => d.acucares
  | .sodio => d.sodio

/-- Overwrite one canonical field (`data[mapped_key] = ...`). -/
def NutriData.set (d : NutriData) : NutriField → ℚ → NutriData
  | .calorias, v => { d with calorias := v }
  | .carboidratos, v => { d with carboidratos := v }
  | .proteinas, v => { d with proteinas := v }
  | .gorduras, v => { d with gorduras := v }
  | .gorduras_saturadas, v => { d with gorduras_saturadas := v }
  | .fibras, v => { d with fibras := v }
  | .acucares, v => { d with acucares := v }
  | .sodio, v => { d with sodio := v }

/-- The ordered nutrient mapping (a Python `dict` iterated in insertion
order). -/
def nutrient_mapping : List (String × NutriField) :=
  [("valor energético", .calorias),
   ("carboidratos", .carboidratos),
   ("proteínas", .proteinas),
   ("gorduras totais", .gorduras),
   ("gorduras saturadas", .gorduras_saturadas),
   ("fibras alimentares", .fibras),
   ("açúcares totais", .acucares),
   ("sódio", .sodio)]

/-- The Nutrient-Label Mapper: lower-case the raw label and take the first
mapping entry whose key is contained in it (`if key in nutrient_name`),
`none` when no key is contained. -/
def mapLabel (rawLabel : String) : Option NutriField :=
  (nutrient_mapping.find? (fun e => listContains e.1.data (pyLower rawLabel).data)).map
    (fun e => e.2)

/-- The `td` cells of a row (`row.find_all('td')`). -/
def rowTds (row : Node) : List Node :=
  findAllTag "td" row

/-- The write a row performs, if any: a row needs at least two `td` cells,
cell 0 is the label and cell 1 the raw value. -/
def rowWrite (row : Node) : Option (NutriField × String) :=
  match rowTds row with
  | c0 :: c1 :: _ =>
    match mapLabel (getTextStrip c0) with
    | some f => some (f, getTextStrip c1)
    | none => none
  | _ => none

/-- One iteration of the `for row in rows` loop. -/
def processRow (d : NutriData) (row : Node) : NutriData :=
  match rowWrite row with
  | some fv => d.set fv.1 (clean_numeric_value fv.2)
  | none => d

/-- The defaults dictionary of `parse_nutritional_table` after the `porcao`
assignment. -/
def initNutriData (porcao : String) : NutriData :=
  ⟨porcao, 0, 0, 0, 0, 0, 0, 0, 0⟩

/-- Source `parse_nutritional_table`: fail without the `div.flow` container or a
`table` inside it; otherwise resolve the serving text and fold the nutrient
writes over the `tbody` rows. -/
def parse_nutritional_table (soup : Node) : Option NutriData :=
  match findTagClass "div" "flow" soup with
  | none => none
  | some flowDiv =>
    match findTag "table" flowDiv with
    | none => none
    | some table =>
      let d0 := initNutriData (extract_porcao table)
      match findTag "tbody" table with
      | none => some d0
      | some tbody => some ((findAllTag "tr" tbody).foldl processRow d0)

/-- Source `extract_product_name`: the ordered selector cascade, with a fixed
placeholder when nothing matches. -/
def extract_product_name (soup : Node) : String :=
  match findTagClass "h1" "product_title" soup with
  | some e => getTextStrip e
  | none =>
    match findTagClass "h1" "product-title" soup with
    | some e => getTextStrip e
    | none =>
      match findTag "h1" soup with
      | some e => getTextStrip e
      | none =>
        match soup.descendants.find? (fun n =>
          match n with
          | .elem _ cl _ _ => cl.contains "product-title"
          | .text _ => false) with
        | some e => getTextStrip e
        | none =>
          match soup.descendants.find? (fun n =>
            match n with
            | .elem _ cl _ _ => cl.contains "product_title"
            | .text _ => false) with
          | some e => getTextStrip e
          | none => "Nome não encontrado"

/-- The record `scrape_product` assembles for one product. -/
structure ProductData where
  nome : String
  url : String
  dados : NutriData
  data_coleta : String
  categoria : String

/-- Source `scrape_product` on an already-fetched page (the fetch itself is the
external collaborator; `data_coleta` stands for `datetime.now()`): `none`
exactly when `parse_nutritional_table` finds no table. -/
def scrape_product (soup : Node) (url categoria data_coleta : String) :
    Option ProductData :=
  match parse_nutritional_table soup with
  | none => none
  | some nd => some ⟨extract_product_name soup, url, nd, data_coleta, categoria⟩

/-! ## `url_collector.py`: `extract_product_urls` and `scrape_proteinas` -/

/-- The collector's base URL constant. -/
def BASE_URL : String := "https://adaptogen.com.br"

/-- Href absolutization: keep `http...` hrefs, prefix root-relative hrefs
with the base, and join anything else under the base. -/
def absolutizeHref (base href : String) : String :=
  if "http".data.isPrefixOf href.data then href
  else if "/".data.isPrefixOf href.data then base ++ href
  else base ++ "/" ++ href

/-- The selector cascade of `extract_product_urls`: anchors with the
product-link marker class, else all `href`-carrying anchors whose href
contains `/produto/`. -/
def productLinkNodes (soup : Node) : List Node :=
  let primary := findAllTagClass "a" "woocommerce-LoopProduct-link" soup
  if primary.isEmpty then
    (findAllTag "a" soup).filter (fun n =>
      match n.getAttr "href" with
      | some h => listContains "/produto/".data h.data
      | none => false)
  else primary

/-- The candidate hrefs (`if href:` skips both missing and empty hrefs). -/
def candidateHrefs (soup : Node) : List String :=
  (productLinkNodes soup).filterMap (fun n =>
    match n.getAttr "href" with
    | some h => if h = "" then none else some h
    | none => none)

/-- The `seen`-set deduplication loop: keep the first occurrence of each
URL, in order. -/
def dedupFirst (seen : List String) : List String → List String
  | [] => []
  | u :: us => if u ∈ seen then dedupFirst seen us else u :: dedupFirst (u :: seen) us

/-- Source `extract_product_urls`: absolutize the candidate hrefs, then drop
duplicates keeping first occurrences. -/
def extract_product_urls (soup : Node) (base : String) : List String :=
  dedupFirst [] ((candidateHrefs soup).map (absolutizeHref base))

/-- True when `soup.find('h3', string='Nenhum produto encontrado')` is not `None`. -/
def hasNoProductsMarker (soup : Node) : Bool :=
  (soup.descendants.find? (fun n =>
    n.isTag "h3" && n.nodeString == some "Nenhum produto encontrado")).isSome

/-- The `while True` pagination loop of `scrape_proteinas`, driven by a
fetch oracle (`none` models a raised `RequestException`).  Returns the
accumulated URL list and the number of fetch calls made.  The fuel argument
only bounds the recursion; every theorem below supplies enough fuel for the
loop to reach its genuine stopping condition, so the `0` branch is never
exercised. -/
def proteinasLoop (fetch : Nat → Option Node) : Nat → Nat → List String → List String × Nat
  | 0, _, acc => (acc, 0)
  | fuel + 1, page, acc =>
    match fetch page with
    | none => (acc, 1)
    | some soup =>
      if hasNoProductsMarker soup then (acc, 1)
      else
        let urls := extract_product_urls soup BASE_URL
        if urls.isEmpty then (acc, 1)
        else
          let r := proteinasLoop fetch fuel (page + 1) (acc ++ urls)
          (r.1, r.2 + 1)

/-- Source `scrape_proteinas`: run the pagination loop from page 1, then
`list(set(all_urls))` (modelled by `List.dedup`; only order-insensitive
facts are proved about it). -/
def scrape_proteinas (fetch : Nat → Option Node) (fuel : Nat) : List String × Nat :=
  let r := proteinasLoop fetch fuel 1 []
  (r.1.dedup, r.2)

/-! ## Derived notions used by the theorems -/

/-- The writes performed by a row list, in order. -/
def rowWrites (rows : List Node) : List (NutriField × String) :=
  rows.filterMap rowWrite

/-- The raw value of the last row writing to field `f`, if any. -/
def lastWriteFor (rows : List Node) (f : NutriField) : Option String :=
  ((rowWrites rows).reverse.find? (fun fv => fv.1 == f)).map (fun fv => fv.2)

/-- A page on which the pagination loop continues: the fetch succeeds, no
"no products" marker, and at least one product URL. -/
def pageGood (fetch : Nat → Option Node) (i : Nat) : Bool :=
  match fetch i with
  | some soup =>
    !hasNoProductsMarker soup && !(extract_product_urls soup BASE_URL).isEmpty
  | none => false

/-- The URLs one fetched page contributes. -/
def pageUrls (fetch : Nat → Option Node) (i : Nat) : List String :=
  match fetch i with
  | some soup => extract_product_urls soup BASE_URL
  | none => []

/-- The URLs contributed by `n` consecutive pages starting at page `a`. -/
def pagesUrls (fetch : Nat → Option Node) : Nat → Nat → List String
  | _, 0 => []
  | a, n + 1 => pageUrls fetch a ++ pagesUrls fetch (a + 1) n

/-! ## Concrete fixtures for the witnesses -/

/-- A table header whose text holds a serving phrase with doubled spaces. -/
def servingHeader : Node :=
  .elem "thead" [] [] [.text "Informação Nutricional\nPorção:  25 g   (1 unidade)\nValores Diários"]

/-- A table carrying `servingHeader`. -/
def servingTable : Node :=
  .elem "table" [] [] [servingHeader]

/-- A body row made only of `th` cells, one holding a serving phrase and two
holding a nutrient label and value. -/
def thRow : Node :=
  .elem "tr" [] []
    [.elem "th" [] [] [.text "Porção de 30g"],
     .elem "th" [] [] [.text "Sódio"],
     .elem "th" [] [] [.text "56 mg"]]

/-- A page whose nutritional table has only `th` cells in its body row. -/
def thOnlySoup : Node :=
  .elem "html" [] []
    [.elem "div" ["flow"] [] [.elem "table" [] [] [.elem "tbody" [] [] [thRow]]]]

/-- Two body rows that both write the sodium field. -/
def sodiumRow1 : Node :=
  .elem "tr" [] [] [.elem "td" [] [] [.text "Sódio"], .elem "td" [] [] [.text "56 mg"]]

/-- Second sodium row; its write must win. -/
def sodiumRow2 : Node :=
  .elem "tr" [] [] [.elem "td" [] [] [.text "Sódio (valor final)"], .elem "td" [] [] [.text "10"]]

/-- Table body with the two sodium rows. -/
def tbodyW : Node :=
  .elem "tbody" [] [] [sodiumRow1, sodiumRow2]

/-- Table around `tbodyW`. -/
def tableW : Node :=
  .elem "table" [] [] [tbodyW]

/-- Page around `tableW`. -/
def dupSodiumSoup : Node :=
  .elem "html" [] [] [.elem "div" ["flow"] [] [tableW]]

/-- A first-row cell on which every serving pattern fails (no whitespace
after the keyword) but the connector `de` occurs. -/
def deCell : Node :=
  .elem "td" [] [] [.text "porçãode 2 dosadores – 10g"]

/-- Row, body and table around `deCell`. -/
def deRow : Node :=
  .elem "tr" [] [] [deCell]

/-- Body around `deRow`. -/
def deTbody : Node :=
  .elem "tbody" [] [] [deRow]

/-- Table around `deTbody` (no `thead`). -/
def deTable : Node :=
  .elem "table" [] [] [deTbody]

/-- A catalog page with a repeated product anchor. -/
def dupPage : Node :=
  .elem "body" [] []
    [.elem "a" ["woocommerce-LoopProduct-link"] [("href", "https://x/produto/a")] [],
     .elem "a" ["woocommerce-LoopProduct-link"] [("href", "https://x/produto/b")] [],
     .elem "a" ["woocommerce-LoopProduct-link"] [("href", "https://x/produto/a")] []]

/-- A product anchor for a given href. -/
def prodAnchor (href : String) : Node :=
  .elem "a" ["woocommerce-LoopProduct-link"] [("href", href)] []

/-- A catalog page listing the given hrefs. -/
def catalogPage (hrefs : List String) : Node :=
  .elem "body" [] [] (hrefs.map prodAnchor)

/-- The "Nenhum produto encontrado" page ending the pagination. -/
def endPage : Node :=
  .elem "body" [] [] [.elem "h3" [] [] [.text "Nenhum produto encontrado"]]

/-- Fetch oracle: two catalog pages, then the end marker. -/
def fetchW : Nat → Option Node := fun n =>
  if n = 1 then some (catalogPage ["https://adaptogen.com.br/produto/u1/", "/produto/u2/"])
  else if n = 2 then some (catalogPage ["/produto/u2/", "/produto/u3/"])
  else if n = 3 then some endPage
  else none

/-- Fetch oracle: one catalog page, then a network failure. -/
def fetchErr : Nat → Option Node := fun n =>
  if n = 1 then some (catalogPage ["/produto/u1/", "/produto/u2/"]) else none

/-! # Theorems -/

/-- Evaluation helper: the numeric value once the text pipeline is known. -/
theorem clean_numeric_value_parts (value : String) (p : Nat × Nat)
    (h : (cleanRun value).bind parseNumRun = some p) :
    clean_numeric_value value = ratOfParts p := by
  unfold clean_numeric_value
  rw [h]

/-- Evaluation helper: the value is `0` once the text pipeline fails. -/
theorem clean_numeric_value_none (value : String)
    (h : (cleanRun value).bind parseNumRun = none) :
    clean_numeric_value value = 0 := by
  unfold clean_numeric_value
  rw [h]

/-- C1: the extractor yields a record exactly when the parser does, and the
parser yields a record exactly when the page holds the `div.flow` container
with a `table` nested inside it; if either is absent the result is `none`,
never an all-zero record. -/
theorem C1_record_iff_container_and_table (soup : Node) (url categoria now : String) :
    (scrape_product soup url categoria now).isSome = (parse_nutritional_table soup).isSome ∧
    (parse_nutritional_table soup = none ↔
      (findTagClass "div" "flow" soup).bind (findTag "table") = none) := by
  constructor
  · unfold scrape_product
    cases parse_nutritional_table soup <;> rfl
  · unfold parse_nutritional_table
    cases h1 : findTagClass "div" "flow" soup with
    | none => simp
    | some d =>
      cases h2 : findTag "table" d with
      | none => simp [h2]
      | some t =>
        simp only [h2, Option.bind_some]
        cases findTag "tbody" t <;> simp [h2]

/-- Evaluation helper: a successful parse pins the mantissa and the scale. -/
theorem parseNumRun_eq (run : List Char) (p : Nat × Nat)
    (h : parseNumRun run = some p) :
    p = (digitsVal (run.filter (fun c => c ≠ '.')),
      ((run.dropWhile (fun c => c ≠ '.')).drop 1).length) := by
  unfold parseNumRun at h
  by_cases hc : (run.count '.' ≤ 1 && run.any Char.isDigit) = true
  · rw [if_pos hc] at h
    exact (Option.some.inj h).symm
  · rw [if_neg hc] at h
    cases h

set_option maxRecDepth 10000 in
/-- C5 counterexample: on 400 nines the extracted run parses, its value
overflows the double range, and the normalizer returns `+inf` — not a
finite number, against the claim's "always returns a finite non-negative
number". -/
theorem C5_counterexample_float_overflow :
    clean_numeric_value_sat overflowInput = PyFloat.inf ∧
    (clean_numeric_value_sat overflowInput).isFinite = false := by
  have h : clean_numeric_value_sat overflowInput = PyFloat.inf := by decide
  exact ⟨h, by rw [h]; rfl⟩

/-- C5 (amended): the Numeric Normalizer is total (a Lean function — it
never raises), its result is non-negative (`+inf` included), empty or
whitespace-only input gives `0`, every finite result agrees with the
exact-rational model `clean_numeric_value`, and a non-finite result arises
only when the extracted run's decimal value reaches the IEEE double
overflow threshold `2^1024 - 2^970`, where `float` saturates to `+inf`. -/
theorem C5_amended_saturating_normalizer (s : String) :
    PyFloat.Nonneg (clean_numeric_value_sat s) ∧
    (pyStrip s = "" → clean_numeric_value_sat s = PyFloat.finite 0) ∧
    (∀ q : ℚ, clean_numeric_value_sat s = PyFloat.finite q → clean_numeric_value s = q) ∧
    (clean_numeric_value_sat s = PyFloat.inf →
      ∃ run, cleanRun s = some run ∧
        floatOverflowNum * 10 ^ ((run.dropWhile (fun c => c ≠ '.')).drop 1).length ≤
          digitsVal (run.filter (fun c => c ≠ '.'))) := by
  cases hcr : cleanRun s with
  | none =>
    have hval : clean_numeric_value_sat s = PyFloat.finite 0 := by
      unfold clean_numeric_value_sat
      rw [hcr]
      rfl
    refine ⟨by rw [hval]; exact le_refl (0 : ℚ), fun _ => hval, ?_, ?_⟩
    · intro q hq
      rw [hval] at hq
      rw [← PyFloat.finite.inj hq]
      exact clean_numeric_value_none s (by rw [hcr]; rfl)
    · intro hq
      rw [hval] at hq
      cases hq
  | some run =>
    have hstr : ¬ pyStrip s = "" := by
      intro hs
      unfold cleanRun at hcr
      rw [if_pos hs] at hcr
      cases hcr
    cases hp : parseNumRun run with
    | none =>
      have hval : clean_numeric_value_sat s = PyFloat.finite 0 := by
        unfold clean_numeric_value_sat
        rw [hcr]
        show (match parseNumRunSat run with | none => PyFloat.finite 0 | some p => p) = _
        unfold parseNumRunSat
        rw [hp]
        rfl
      refine ⟨by rw [hval]; exact le_refl (0 : ℚ), fun _ => hval, ?_, ?_⟩
      · intro q hq
        rw [hval] at hq
        rw [← PyFloat.finite.inj hq]
        exact clean_numeric_value_none s (by rw [hcr]; exact hp)
      · intro hq
        rw [hval] at hq
        cases hq
    | some p =>
      have hpe := parseNumRun_eq run p hp
      by_cases hov : floatOverflowNum * 10 ^ p.2 ≤ p.1
      · have hval : clean_numeric_value_sat s = PyFloat.inf := by
          simp [clean_numeric_value_sat, hcr, parseNumRunSat, hp, hov]
        refine ⟨by rw [hval]; trivial, fun hs => absurd hs hstr, ?_, ?_⟩
        · intro q hq
          rw [hval] at hq
          cases hq
        · intro _
          refine ⟨run, rfl, ?_⟩
          rw [hpe] at hov
          simpa using hov
      · have hval : clean_numeric_value_sat s = PyFloat.finite (ratOfParts p) := by
          simp [clean_numeric_value_sat, hcr, parseNumRunSat, hp, hov]
        refine ⟨?_, fun hs => absurd hs hstr, ?_, ?_⟩
        · rw [hval]
          show 0 ≤ ratOfParts p
          unfold ratOfParts
          positivity
        · intro q hq
          rw [hval] at hq
          rw [← PyFloat.finite.inj hq]
          exact clean_numeric_value_parts s p (by rw [hcr]; exact hp)
        · intro hq
          rw [hval] at hq
          cases hq

/-- Witness for the amended C5 at a whitespace-only input. -/
theorem C5_amended_witness : clean_numeric_value_sat "   " = PyFloat.finite 0 :=
  (C5_amended_saturating_normalizer "   ").2.1 (by decide)

/-- The first element surviving `dropWhile` falsifies the predicate. -/
theorem dropWhile_head_false {p : Char → Bool} : ∀ (l : List Char) (c : Char),
    (l.dropWhile p).head? = some c → p c = false := by
  intro l
  induction l with
  | nil => intro c h; simp [List.dropWhile] at h
  | cons x xs ih =>
    intro c h
    rw [List.dropWhile_cons] at h
    by_cases hx : p x = true
    · rw [if_pos hx] at h
      exact ih c h
    · rw [if_neg hx] at h
      rw [List.head?_cons] at h
      have hxc := Option.some.inj h
      simp only [Bool.not_eq_true] at hx
      rw [← hxc]
      exact hx

/-- Extraction `firstNumRun` really is the leftmost maximal `[\d.]+` run: everything
before it is non-numeric, the run itself is non-empty and numeric, and the
character right after it (if any) is non-numeric. -/
theorem firstNumRun_spec : ∀ (cs run : List Char), firstNumRun cs = some run →
    ∃ pre post, cs = pre ++ run ++ post ∧ (∀ c ∈ pre, isNumChar c = false) ∧
      run ≠ [] ∧ (∀ c ∈ run, isNumChar c = true) ∧
      (∀ c, post.head? = some c → isNumChar c = false) := by
  intro cs
  induction cs with
  | nil => intro run h; simp [firstNumRun] at h
  | cons c cs ih =>
    intro run h
    rw [firstNumRun] at h
    by_cases hc : isNumChar c = true
    · rw [if_pos hc] at h
      cases h
      refine ⟨[], cs.dropWhile isNumChar, ?_, by simp, by simp, ?_, ?_⟩
      · simp [List.takeWhile_append_dropWhile]
      · intro x hx
        rcases List.mem_cons.mp hx with h1 | h2
        · rw [h1]; exact hc
        · exact List.mem_takeWhile_imp h2
      · intro x hx
        exact dropWhile_head_false cs x hx
    · rw [if_neg hc] at h
      obtain ⟨pre, post, heq, hpre, hne, hrun, hpost⟩ := ih run h
      refine ⟨c :: pre, post, by simp [heq], ?_, hne, hrun, hpost⟩
      intro x hx
      rcases List.mem_cons.mp hx with h1 | h2
      · simp only [Bool.not_eq_true] at hc
        rw [h1]; exact hc
      · exact hpre x h2

/-- C4 counterexample: on `"1.2.3"` the code's `[\d.]+` extraction takes the
whole three-period run and `float` then fails, so the code returns `0`,
while the claim's "run of digits containing at most one decimal point"
extraction takes `"1.2"` and returns `1.2`. -/
theorem C4_counterexample_two_periods :
    clean_numeric_value "1.2.3" = 0 ∧ claimNormalize "1.2.3" = 6 / 5 ∧
    clean_numeric_value "1.2.3" ≠ claimNormalize "1.2.3" := by
  have h1 : clean_numeric_value "1.2.3" = 0 := clean_numeric_value_none "1.2.3" (by decide)
  have h2 : claimNormalize "1.2.3" = 6 / 5 := by
    have h : (if pyStrip "1.2.3" = "" then none
        else claimFirstNumRun
          ((pyStrip "1.2.3").data.map (fun c => if c = ',' then '.' else c))).bind
          parseNumRun = some (12, 1) := by decide
    unfold claimNormalize
    rw [h]
    norm_num [ratOfParts]
  refine ⟨h1, h2, ?_⟩
  rw [h1, h2]
  norm_num

/-- C4 (amended): the Numeric Normalizer replaces commas by periods, then
extracts the first maximal contiguous run of digit-or-period characters
(ignoring surrounding text and units); the run parses — and its decimal
value is returned — when it holds at most one period and at least one
digit, and the normalizer returns `0` when it holds two or more periods;
`normalize("12,5") = 12.5` and `normalize("3 g") = 3`. -/
theorem C4_amended_normalizer (s : String) (run : List Char)
    (h : cleanRun s = some run) :
    (∃ pre post,
      (pyStrip s).data.map (fun c => if c = ',' then '.' else c) = pre ++ run ++ post ∧
      (∀ c ∈ pre, isNumChar c = false) ∧ run ≠ [] ∧ (∀ c ∈ run, isNumChar c = true) ∧
      (∀ c, post.head? = some c → isNumChar c = false)) ∧
    (run.count '.' ≤ 1 → run.any Char.isDigit = true →
      clean_numeric_value s = ratOfParts (digitsVal (run.filter (fun c => c ≠ '.')),
        ((run.dropWhile (fun c => c ≠ '.')).drop 1).length)) ∧
    (1 < run.count '.' → clean_numeric_value s = 0) ∧
    clean_numeric_value "12,5" = 25 / 2 ∧ clean_numeric_value "3 g" = 3 := by
  have hrun : firstNumRun ((pyStrip s).data.map (fun c => if c = ',' then '.' else c)) =
      some run := by
    unfold cleanRun at h
    by_cases hs : pyStrip s = ""
    · rw [if_pos hs] at h; cases h
    · rw [if_neg hs] at h; exact h
  refine ⟨firstNumRun_spec _ run hrun, ?_, ?_, ?_, ?_⟩
  · intro hcount hdig
    apply clean_numeric_value_parts
    rw [h]
    show parseNumRun run = some _
    unfold parseNumRun
    rw [if_pos (by simp [hcount, hdig])]
  · intro hcount
    apply clean_numeric_value_none
    rw [h]
    show parseNumRun run = none
    unfold parseNumRun
    rw [if_neg (by simp; omega)]
  · rw [clean_numeric_value_parts "12,5" (125, 1) (by decide)]
    norm_num [ratOfParts]
  · rw [clean_numeric_value_parts "3 g" (3, 0) (by decide)]
    norm_num [ratOfParts]

/-- Witness for the amended C4 at `"12,5"`. -/
theorem C4_amended_witness : clean_numeric_value "12,5" = ratOfParts (125, 1) := by
  have h := (C4_amended_normalizer "12,5" ("12.5".data) (by decide)).2.1 (by decide) (by decide)
  exact h

/-- C2: the Serving-Size Resolver tries the header region first — whenever a
`thead` exists and the ordered patterns capture something in its text, that
(whitespace-collapsed) capture is the result, whatever the body holds; on
the fixture header containing `"Porção:  25 g   (1 unidade)"` it returns
`"25 g (1 unidade)"` for every body; and the patterns are tried in order
(`"Porção de 10g"` is captured by the `Porção de` pattern as `"10g"`, not by
the later bare `Porção` pattern as `"de 10g"`). -/
theorem C2_header_patterns_first :
    (∀ (table hd : Node) (r : String), findTag "thead" table = some hd →
      tryPatterns (getText hd) = some r → extract_porcao table = r) ∧
    (∀ rest : List Node,
      extract_porcao (.elem "table" [] [] (servingHeader :: rest)) = "25 g (1 unidade)") ∧
    tryPatterns "Porção de 10g" = some "10g" := by
  refine ⟨?_, ?_, by decide⟩
  · intro table hd r hh hm
    simp only [extract_porcao, hh, hm]
  · intro rest
    have hfind : findTag "thead" (.elem "table" [] [] (servingHeader :: rest)) =
        some servingHeader := by
      unfold findTag Node.descendants descendantsList
      exact List.find?_cons_of_pos _ (by decide)
    simp only [extract_porcao, hfind,
      show tryPatterns (getText servingHeader) = some "25 g (1 unidade)" from by decide]

/-- Witness for C2 on the concrete fixture table. -/
theorem C2_header_witness : extract_porcao servingTable = "25 g (1 unidade)" :=
  C2_header_patterns_first.1 servingTable servingHeader "25 g (1 unidade)" rfl (by decide)

/-- C10: the nutrient loop counts only `td` cells — a row with fewer than
two `td` cells (in particular a row whose label and value slots are `th`
cells) writes nothing; yet the serving-size scan over the first body row
does consider `th` cells: on the fixture page whose only body row is made
of `th` cells, the serving text is still found while every nutrient field
stays at its default `0`, the sodium label notwithstanding. -/
theorem C10_td_only_nutrients :
    (∀ (row : Node) (d : NutriData), (rowTds row).length < 2 → processRow d row = d) ∧
    parse_nutritional_table thOnlySoup = some (initNutriData "30g") := by
  constructor
  · intro row d h
    have hw : rowWrite row = none := by
      unfold rowWrite
      rcases hc : rowTds row with _ | ⟨c0, _ | ⟨c1, t2⟩⟩
      · rfl
      · rfl
      · rw [hc] at h
        simp only [List.length_cons] at h
        omega
    simp [processRow, hw]
  · rfl

/-- Witness for C10: a `th`-only row leaves the data unchanged. -/
theorem C10_witness : processRow (initNutriData "") thRow = initNutriData "" :=
  C10_td_only_nutrients.1 thRow (initNutriData "") (by decide)

/-- Membership in the `seen`-set dedup loop. -/
theorem dedupFirst_mem (l : List String) : ∀ (seen : List String) (u : String),
    u ∈ dedupFirst seen l ↔ u ∈ l ∧ u ∉ seen := by
  induction l with
  | nil => intro seen u; simp [dedupFirst]
  | cons v vs ih =>
    intro seen u
    by_cases hv : v ∈ seen
    · rw [dedupFirst, if_pos hv, ih]
      constructor
      · rintro ⟨h1, h2⟩
        exact ⟨List.mem_cons_of_mem v h1, h2⟩
      · rintro ⟨h1, h2⟩
        rcases List.mem_cons.mp h1 with h1 | h1
        · exact absurd (h1 ▸ hv) h2
        · exact ⟨h1, h2⟩
    · rw [dedupFirst, if_neg hv]
      rw [List.mem_cons, ih]
      constructor
      · rintro (h1 | ⟨h1, h2⟩)
        · exact ⟨h1 ▸ List.mem_cons_self u vs, h1 ▸ hv⟩
        · exact ⟨List.mem_cons_of_mem v h1, fun hc => h2 (List.mem_cons_of_mem v hc)⟩
      · rintro ⟨h1, h2⟩
        by_cases huv : u = v
        · exact Or.inl huv
        · rcases List.mem_cons.mp h1 with h1 | h1
          · exact absurd h1 huv
          · refine Or.inr ⟨h1, ?_⟩
            intro hc
            rcases List.mem_cons.mp hc with hc | hc
            · exact huv hc
            · exact h2 hc

/-- The `seen`-set dedup loop yields a duplicate-free list. -/
theorem dedupFirst_nodup (l : List String) : ∀ seen : List String,
    (dedupFirst seen l).Nodup := by
  induction l with
  | nil => intro seen; simp [dedupFirst]
  | cons v vs ih =>
    intro seen
    by_cases hv : v ∈ seen
    · rw [dedupFirst, if_pos hv]
      exact ih seen
    · rw [dedupFirst, if_neg hv]
      refine List.nodup_cons.mpr ⟨?_, ih (v :: seen)⟩
      rw [dedupFirst_mem]
      rintro ⟨-, h2⟩
      exact h2 (List.mem_cons_self v seen)

/-- Transfer a pairwise relation along an implication that may use
membership. -/
theorem pairwise_impl_mem {α : Type} {R S : α → α → Prop} :
    ∀ {l : List α}, l.Pairwise R → (∀ a, a ∈ l → ∀ b, b ∈ l → R a b → S a b) →
      l.Pairwise S := by
  intro l
  induction l with
  | nil => intro _ _; exact List.Pairwise.nil
  | cons x xs ih =>
    intro hp hrs
    rw [List.pairwise_cons] at hp ⊢
    refine ⟨fun b hb => hrs x (List.mem_cons_self x xs) b (List.mem_cons_of_mem x hb)
      (hp.1 b hb), ih hp.2 ?_⟩
    intro a ha b hb h
    exact hrs a (List.mem_cons_of_mem x ha) b (List.mem_cons_of_mem x hb) h

/-- The dedup loop keeps first-seen order: along its output, the index of
the first occurrence in the input list strictly increases. -/
theorem dedupFirst_first_seen (l : List String) : ∀ seen : List String,
    (dedupFirst seen l).Pairwise (fun a b => l.indexOf a < l.indexOf b) := by
  induction l with
  | nil => intro seen; simp [dedupFirst]
  | cons v vs ih =>
    intro seen
    by_cases hv : v ∈ seen
    · rw [dedupFirst, if_pos hv]
      refine pairwise_impl_mem (ih seen) ?_
      intro a ha b hb hR
      have haa := (dedupFirst_mem vs seen a).mp ha
      have hbb := (dedupFirst_mem vs seen b).mp hb
      have hav : v ≠ a := fun h => haa.2 (h ▸ hv)
      have hbv : v ≠ b := fun h => hbb.2 (h ▸ hv)
      rw [List.indexOf_cons_ne vs hav, List.indexOf_cons_ne vs hbv]
      exact Nat.succ_lt_succ hR
    · rw [dedupFirst, if_neg hv]
      rw [List.pairwise_cons]
      constructor
      · intro b hb
        have hbb := (dedupFirst_mem vs (v :: seen) b).mp hb
        have hbv : v ≠ b := fun h => hbb.2 (h ▸ List.mem_cons_self v seen)
        rw [List.indexOf_cons_self, List.indexOf_cons_ne vs hbv]
        exact Nat.succ_pos _
      · refine pairwise_impl_mem (ih (v :: seen)) ?_
        intro a ha b hb hR
        have haa := (dedupFirst_mem vs (v :: seen) a).mp ha
        have hbb := (dedupFirst_mem vs (v :: seen) b).mp hb
        have hav : v ≠ a := fun h => haa.2 (h ▸ List.mem_cons_self v seen)
        have hbv : v ≠ b := fun h => hbb.2 (h ▸ List.mem_cons_self v seen)
        rw [List.indexOf_cons_ne vs hav, List.indexOf_cons_ne vs hbv]
        exact Nat.succ_lt_succ hR

/-- C8: the Catalog Page Collector returns exactly the absolutized candidate
hrefs (already-absolute kept, root-relative prefixed, others joined — via
`absolutizeHref`), with duplicates removed; the output is duplicate-free and
ordered by first occurrence in the candidate list; and on the fixture page
whose two identical absolute hrefs surround a second href, the duplicate
collapses onto its first position. -/
theorem C8_collector_dedup_first_seen (soup : Node) (base : String) :
    (∀ u, u ∈ extract_product_urls soup base ↔
      u ∈ (candidateHrefs soup).map (absolutizeHref base)) ∧
    (extract_product_urls soup base).Nodup ∧
    (extract_product_urls soup base).Pairwise (fun a b =>
      ((candidateHrefs soup).map (absolutizeHref base)).indexOf a <
        ((candidateHrefs soup).map (absolutizeHref base)).indexOf b) ∧
    extract_product_urls dupPage BASE_URL =
      ["https://x/produto/a", "https://x/produto/b"] := by
  refine ⟨?_, dedupFirst_nodup _ [], dedupFirst_first_seen _ [], by decide⟩
  intro u
  rw [extract_product_urls, dedupFirst_mem]
  simp

/-- Reading back the field just written. -/
theorem NutriData.get_set_self (d : NutriData) (f : NutriField) (v : ℚ) :
    (d.set f v).get f = v := by
  cases f <;> rfl

/-- Writing one field leaves the others unchanged. -/
theorem NutriData.get_set_ne (d : NutriData) (f g : NutriField) (v : ℚ)
    (h : g ≠ f) : (d.set g v).get f = d.get f := by
  cases f <;> cases g <;> first | rfl | exact absurd rfl h

/-- Every numeric field of the defaults dictionary is `0`. -/
theorem initNutriData_get (p : String) (f : NutriField) :
    (initNutriData p).get f = 0 := by
  cases f <;> rfl

/-- Lemma: `find?` over an append searches the left part first. -/
theorem find?_append_first {α : Type} (p : α → Bool) : ∀ l₁ l₂ : List α,
    (l₁ ++ l₂).find? p =
      match l₁.find? p with
      | some x => some x
      | none => l₂.find? p := by
  intro l₁ l₂
  induction l₁ with
  | nil => rfl
  | cons a t ih =>
    by_cases ha : p a = true
    · simp [List.find?, ha]
    · simp only [Bool.not_eq_true] at ha
      simp [List.find?, ha, ih]

/-- Peeling one row off the last-write search. -/
theorem lastWriteFor_cons (r : Node) (rs : List Node) (f : NutriField) :
    lastWriteFor (r :: rs) f =
      match lastWriteFor rs f with
      | some w => some w
      | none =>
        match rowWrite r with
        | some fv => if fv.1 = f then some fv.2 else none
        | none => none := by
  unfold lastWriteFor rowWrites
  rw [List.filterMap_cons]
  cases hw : rowWrite r with
  | none =>
    cases ((rs.filterMap rowWrite).reverse.find? fun fv => fv.1 == f) <;> rfl
  | some fv =>
    rw [List.reverse_cons, find?_append_first]
    cases hfind : ((rs.filterMap rowWrite).reverse.find? fun fv => fv.1 == f) with
    | some x => rfl
    | none =>
      by_cases hf : fv.1 = f
      · simp [List.find?, hf]
      · have hb : (fv.1 == f) = false := beq_eq_false_iff_ne.mpr hf
        simp [List.find?, hb, hf]

/-- The nutrient row loop realizes last-write-wins: after folding the rows,
each field holds the normalized value of the last row that wrote it, and its
starting value if none did. -/
theorem foldl_processRow_get (f : NutriField) : ∀ (rows : List Node) (d : NutriData),
    (rows.foldl processRow d).get f =
      match lastWriteFor rows f with
      | some v => clean_numeric_value v
      | none => d.get f := by
  intro rows
  induction rows with
  | nil => intro d; rfl
  | cons r rs ih =>
    intro d
    rw [List.foldl_cons, ih, lastWriteFor_cons]
    cases hlw : lastWriteFor rs f with
    | some w => rfl
    | none =>
      cases hw : rowWrite r with
      | none => simp [processRow, hw]
      | some fv =>
        simp only [processRow, hw]
        by_cases hf : fv.1 = f
        · rw [if_pos hf, hf, NutriData.get_set_self]
        · rw [if_neg hf]
          exact NutriData.get_set_ne d f fv.1 (clean_numeric_value fv.2) hf

/-- C3: once the container, table and body are found, the extractor returns
the fold of the row loop over the body's rows started from the defaults; a
row writes only when it has at least two `td` cells and its label maps
(first containment match in the ordered mapping, unmapped rows ignored), and
each field ends up holding the normalized value of the *last* row that wrote
it — `0` when none did. -/
theorem C3_last_write_wins (soup flowDiv table tbody : Node) (f : NutriField)
    (h1 : findTagClass "div" "flow" soup = some flowDiv)
    (h2 : findTag "table" flowDiv = some table)
    (h3 : findTag "tbody" table = some tbody) :
    parse_nutritional_table soup =
      some ((findAllTag "tr" tbody).foldl processRow (initNutriData (extract_porcao table))) ∧
    ((findAllTag "tr" tbody).foldl processRow (initNutriData (extract_porcao table))).get f =
      (match lastWriteFor (findAllTag "tr" tbody) f with
       | some v => clean_numeric_value v
       | none => 0) := by
  constructor
  · simp only [parse_nutritional_table, h1, h2, h3]
  · rw [foldl_processRow_get]
    cases lastWriteFor (findAllTag "tr" tbody) f with
    | some v => rfl
    | none => exact initNutriData_get _ f

/-- Witness for C3: two sodium rows, the second write wins. -/
theorem C3_witness :
    (parse_nutritional_table dupSodiumSoup).map (fun d => d.get NutriField.sodio) =
      some (clean_numeric_value "10") := by
  have h := C3_last_write_wins dupSodiumSoup (.elem "div" ["flow"] [] [tableW]) tableW tbodyW
    NutriField.sodio rfl rfl rfl
  rw [h.1, Option.map_some', h.2]
  rw [show lastWriteFor (findAllTag "tr" tbodyW) NutriField.sodio = some "10" from rfl]

/-- Mapping a function over both lists preserves prefixes. -/
theorem isPrefixOf_map_char (f : Char → Char) : ∀ (n l : List Char),
    n.isPrefixOf l = true → (n.map f).isPrefixOf (l.map f) = true := by
  intro n
  induction n with
  | nil => intro l _; simp [List.isPrefixOf]
  | cons a t ih =>
    intro l h
    cases l with
    | nil => simp [List.isPrefixOf] at h
    | cons b bs =>
      simp only [List.isPrefixOf, Bool.and_eq_true, beq_iff_eq] at h
      simp only [List.map_cons, List.isPrefixOf, Bool.and_eq_true, beq_iff_eq]
      exact ⟨by rw [h.1], ih bs h.2⟩

/-- Mapping a function over both strings preserves substring containment. -/
theorem listContains_map_char (f : Char → Char) : ∀ (n l : List Char),
    listContains n l = true → listContains (n.map f) (l.map f) = true := by
  intro n l
  induction l with
  | nil =>
    intro h
    simp [listContains] at h ⊢
    simp [h]
  | cons c t ih =>
    intro h
    rw [listContains, Bool.or_eq_true] at h
    rw [List.map_cons, listContains, Bool.or_eq_true]
    rcases h with h | h
    · exact Or.inl (by simpa using isPrefixOf_map_char f n (c :: t) h)
    · exact Or.inr (ih h)

/-- A successful one-shot split witnesses that the pattern occurs. -/
theorem splitOnceAt_contains (p : Char) (ps : List Char) : ∀ (l : List Char)
    (q : List Char × List Char), splitOnceAt p ps l = some q →
    listContains (p :: ps) l = true := by
  intro l
  induction l with
  | nil => intro q h; simp [splitOnceAt] at h
  | cons c cs ih =>
    intro q h
    rw [splitOnceAt] at h
    rw [listContains, Bool.or_eq_true]
    by_cases hp : (p :: ps).isPrefixOf (c :: cs) = true
    · exact Or.inl hp
    · rw [if_neg hp] at h
      cases hsplit : splitOnceAt p ps cs with
      | none => rw [hsplit] at h; cases h
      | some q2 => exact Or.inr (ih q2 hsplit)

/-- Cells before the first keyword cell are skipped by the cell loop. -/
theorem cellLoop_skip : ∀ (pre rest : List Node),
    (∀ c ∈ pre, listContains porcaoKeyword (pyLower (getText c)).data = false) →
    cellLoop (pre ++ rest) = cellLoop rest := by
  intro pre
  induction pre with
  | nil => intro rest _; rfl
  | cons c t ih =>
    intro rest h
    have hc := h c (List.mem_cons_self c t)
    rw [List.cons_append, cellLoop, hc]
    · exact ih rest (fun x hx => h x (List.mem_cons_of_mem c hx))

/-- C9: when the header yields nothing, the first keyword cell of the first
body row is reached, and if the ordered patterns all fail on its text while
the connector `de` occurs in it, the resolver returns the text after the
first `de`, whitespace-collapsed. -/
theorem C9_connector_split (table tbody row cell : Node) (pre post : List Node)
    (q : List Char × List Char)
    (h0 : ∀ hd, findTag "thead" table = some hd → tryPatterns (getText hd) = none)
    (h1 : findTag "tbody" table = some tbody)
    (h2 : findTag "tr" tbody = some row)
    (h3 : findAllTags ["td", "th"] row = pre ++ cell :: post)
    (h4 : ∀ c ∈ pre, listContains porcaoKeyword (pyLower (getText c)).data = false)
    (h5 : listContains porcaoKeyword (pyLower (getText cell)).data = true)
    (h6 : tryPatterns (getText cell) = none)
    (h7 : splitOnceAt 'd' ['e'] (getText cell).data = some q) :
    extract_porcao table = pyCollapse (String.mk q.2) := by
  have hde : listContains "de".data (pyLower (getText cell)).data = true := by
    have hoc := splitOnceAt_contains 'd' ['e'] (getText cell).data q h7
    have hmap := listContains_map_char charLower _ _ hoc
    simpa [pyLower] using hmap
  have hrow : porcaoFromFirstRow table = pyCollapse (String.mk q.2) := by
    simp only [porcaoFromFirstRow, h1, h2, h3]
    rw [cellLoop_skip pre (cell :: post) h4]
    simp [cellLoop, h5, h6, hde, h7]
  cases hh : findTag "thead" table with
  | none =>
    simp only [extract_porcao, hh]
    exact hrow
  | some hd =>
    simp only [extract_porcao, hh, h0 hd hh]
    exact hrow

/-- Witness for C9 on the fixture whose patterns all fail. -/
theorem C9_witness : extract_porcao deTable = "2 dosadores – 10g" := by
  have h := C9_connector_split deTable deTbody deRow deCell [] []
    ("porção".data, " 2 dosadores – 10g".data)
    (by intro hd hh
        rw [show findTag "thead" deTable = none from rfl] at hh
        cases hh)
    rfl rfl rfl
    (by intro c hc; simp at hc)
    (by decide) (by decide) (by decide)
  exact h

/-- Characterization of the pagination loop: if every page from `a` up to
(excluding) `k` is good and page `k` stops the loop (marker, empty page or
fetch failure alike), the loop accumulates exactly the URLs of the good
pages and performs one fetch per page from `a` through `k`. -/
theorem proteinasLoop_run (fetch : Nat → Option Node) (k : Nat)
    (hstop : pageGood fetch k = false) : ∀ (fuel : Nat), ∀ (a : Nat) (acc : List String),
    a ≤ k → k < a + fuel → (∀ i, a ≤ i → i < k → pageGood fetch i = true) →
    proteinasLoop fetch fuel a acc = (acc ++ pagesUrls fetch a (k - a), k - a + 1) := by
  intro fuel
  induction fuel with
  | zero =>
    intro a acc h1 h2 _
    omega
  | succ n ih =>
    intro a acc hak hfuel hgood
    rcases Nat.lt_or_ge a k with hlt | hge
    · have hg := hgood a le_rfl hlt
      unfold pageGood at hg
      cases hf : fetch a with
      | none => rw [hf] at hg; cases hg
      | some soup =>
        rw [hf] at hg
        rw [Bool.and_eq_true, Bool.not_eq_true', Bool.not_eq_true'] at hg
        have hrec := ih (a + 1) (acc ++ extract_product_urls soup BASE_URL) (by omega)
          (by omega) (fun i hi1 hi2 => hgood i (by omega) hi2)
        simp only [proteinasLoop, hf, hg.1, hg.2, Bool.false_eq_true, if_false, hrec]
        have hsub : k - a = (k - (a + 1)) + 1 := by omega
        rw [hsub]
        simp only [pagesUrls, pageUrls, hf, List.append_assoc]
    · have hak2 : a = k := Nat.le_antisymm hak hge
      subst hak2
      unfold pageGood at hstop
      rw [Nat.sub_self]
      simp only [pagesUrls, List.append_nil]
      cases hf : fetch a with
      | none => simp only [proteinasLoop, hf]
      | some soup =>
        rw [hf] at hstop
        rw [Bool.and_eq_false_iff] at hstop
        rcases hstop with hm | hu
        · rw [Bool.not_eq_false'] at hm
          simp only [proteinasLoop, hf, hm, if_true]
        · rw [Bool.not_eq_false'] at hu
          by_cases hm : hasNoProductsMarker soup = true
          · simp only [proteinasLoop, hf, hm, if_true]
          · simp only [proteinasLoop, hf, hm, if_false, hu, if_true]
            rfl

/-- A non-nil list is not `isEmpty`. -/
theorem isEmpty_false_of_ne_nil {α : Type} {l : List α} (h : l ≠ []) :
    l.isEmpty = false := by
  cases l with
  | nil => exact absurd rfl h
  | cons a t => rfl

/-- Deduplication keeps the set of elements. -/
theorem dedup_toFinset (l : List String) : l.dedup.toFinset = l.toFinset := by
  ext a
  simp [List.mem_toFinset, List.mem_dedup]

/-- C6: when pages 1 and 2 yield references and lack the marker while page 3
carries the explicit "Nenhum produto encontrado" marker, the controller
performs exactly 3 fetch calls and returns the union of the references of
pages 1 and 2, deduplicated. -/
theorem C6_three_pages (fetch : Nat → Option Node) (p1 p2 p3 : Node) (fuel : Nat)
    (h1 : fetch 1 = some p1) (h2 : fetch 2 = some p2) (h3 : fetch 3 = some p3)
    (m1 : hasNoProductsMarker p1 = false) (m2 : hasNoProductsMarker p2 = false)
    (m3 : hasNoProductsMarker p3 = true)
    (u1 : extract_product_urls p1 BASE_URL ≠ [])
    (u2 : extract_product_urls p2 BASE_URL ≠ [])
    (hf : 3 ≤ fuel) :
    (scrape_proteinas fetch fuel).2 = 3 ∧
    (scrape_proteinas fetch fuel).1.toFinset =
      (extract_product_urls p1 BASE_URL ++ extract_product_urls p2 BASE_URL).toFinset ∧
    (scrape_proteinas fetch fuel).1.Nodup := by
  have hstop : pageGood fetch 3 = false := by
    simp [pageGood, h3, m3]
  have hgood : ∀ i, 1 ≤ i → i < 3 → pageGood fetch i = true := by
    intro i hi1 hi2
    interval_cases i
    · simp [pageGood, h1, m1, isEmpty_false_of_ne_nil u1]
    · simp [pageGood, h2, m2, isEmpty_false_of_ne_nil u2]
  have hrun := proteinasLoop_run fetch 3 hstop fuel 1 [] (by omega) (by omega) hgood
  have hpag : pagesUrls fetch 1 (3 - 1) =
      extract_product_urls p1 BASE_URL ++ extract_product_urls p2 BASE_URL := by
    show pagesUrls fetch 1 2 = _
    simp [pagesUrls, pageUrls, h1, h2]
  simp only [scrape_proteinas, hrun, hpag, List.nil_append]
  exact ⟨by trivial, dedup_toFinset _, List.nodup_dedup _⟩

/-- Witness for C6 with a concrete three-page fetch oracle. -/
theorem C6_witness :
    (scrape_proteinas fetchW 9).2 = 3 ∧
    (scrape_proteinas fetchW 9).1.toFinset =
      (extract_product_urls
          (catalogPage ["https://adaptogen.com.br/produto/u1/", "/produto/u2/"]) BASE_URL ++
        extract_product_urls (catalogPage ["/produto/u2/", "/produto/u3/"]) BASE_URL).toFinset ∧
    (scrape_proteinas fetchW 9).1.Nodup :=
  C6_three_pages fetchW _ _ _ 9 rfl rfl rfl (by decide) (by decide) (by decide)
    (by decide) (by decide) (by omega)

/-- C7: a fetch failure at page `k` (after good pages `1..k-1`) stops the
pagination immediately — exactly `k` fetch calls, no retry — and the
controller returns the references accumulated from the earlier pages,
deduplicated. -/
theorem C7_fetch_failure_stops (fetch : Nat → Option Node) (k fuel : Nat)
    (hk : 1 ≤ k) (hkf : k ≤ fuel) (herr : fetch k = none)
    (hgood : ∀ i, 1 ≤ i → i < k → pageGood fetch i = true) :
    (scrape_proteinas fetch fuel).2 = k ∧
    (scrape_proteinas fetch fuel).1.toFinset = (pagesUrls fetch 1 (k - 1)).toFinset ∧
    (scrape_proteinas fetch fuel).1.Nodup := by
  have hstop : pageGood fetch k = false := by
    simp [pageGood, herr]
  have hrun := proteinasLoop_run fetch k hstop fuel 1 [] hk (by omega) hgood
  simp only [scrape_proteinas, hrun, List.nil_append]
  exact ⟨by omega, dedup_toFinset _, List.nodup_dedup _⟩

/-- Witness for C7: page 1 succeeds, page 2 raises, two calls total. -/
theorem C7_witness :
    (scrape_proteinas fetchErr 5).2 = 2 ∧
    (scrape_proteinas fetchErr 5).1.toFinset = (pagesUrls fetchErr 1 1).toFinset ∧
    (scrape_proteinas fetchErr 5).1.Nodup :=
  C7_fetch_failure_stops fetchErr 2 5 (by omega) (by omega) rfl
    (by intro i hi1 hi2
        have hi : i = 1 := by omega
        subst hi
        decide)
